import Mathlib

/-!
Verification of the RABBIT-ng bot-detection pipeline against its
natural-language specification.

The Lean definitions below are a shallow embedding of the Python sources:

* `src/rabbit_ng/predictor/features.py` (feature extraction,
  `ActivityFeatureExtractor`): `prepare_dataframe`, `compute_stats`,
  `compute_gini`, the per-feature computations and `compute_user_row`.
* `src/rabbit_ng/predictor/models.py` (`ONNXPredictor.predict`):
  `onnx_predict`.
* `src/rabbit/sources/github_api.py` (`_handle_api_response`,
  `query_events`): `handle_api_response`, `query_events_trace`.
* `src/rabbit{,_ng}/sources/retry_utils.py` (`retry`): `retryRun`.

Modelling conventions:

* Python/pandas floats are modelled by `ℚ`; a possibly-NaN float is
  `Option ℚ` with `none` playing the role of NaN (pandas aggregations
  skip NaN, which is modelled by `dropNone`).
* Timestamps are integers (seconds since the epoch).  The source parses
  `start_date` with `%Y-%m-%dT%H:%M:%SZ` and `errors="coerce"`; the
  embedding starts from the parse result, `Option ℤ` (`none` = NaT).
  The parse format has whole-second resolution, so durations divided by
  the 1-hour time unit are exact rationals.
* `.round(3)` in numpy/pandas rounds half to even; `round3` implements
  that exactly on `ℚ`.
* `series.std()` (sample standard deviation) is irrational in general;
  `round3Sqrt` computes the 3-decimal rounding of the exact square root
  with integer arithmetic, fusing the final `.round(3)` of the pipeline
  into the square root so that every value stays in `ℚ`.
-/

namespace Rabbit

/-- Round half to even to an integer (numpy/pandas rounding). -/
def roundHalfEven (q : ℚ) : ℤ :=
  let f := ⌊q⌋
  let r := q - f
  if r < 1/2 then f
  else if 1/2 < r then f + 1
  else if 2 ∣ f then f else f + 1

/-- The `.round(3)` of numpy/pandas on an exact rational. -/
def round3 (q : ℚ) : ℚ := (roundHalfEven (q * 1000) : ℚ) / 1000

/-- The `.round(3)` rounding lifted to possibly-NaN floats (`round` keeps NaN NaN). -/
def optRound3 : Option ℚ → Option ℚ := Option.map round3

/-- Truncation toward zero, the `astype(int)` cast of numpy/pandas. -/
def truncInt (q : ℚ) : ℤ := q.num.tdiv q.den

/-- Value of `round3` at the square root of `v`, computed exactly by integer square root:
for `v = p / q ≥ 0`, `⌊1000·√v + 1/2⌋ = ⌊(⌊√(4·10⁶·p·q)⌋ + q) / (2q)⌋`
(rounding ties up; the value feeds no claim numerically). -/
def round3Sqrt (v : ℚ) : ℚ :=
  if v ≤ 0 then 0
  else
    let p := v.num.toNat
    let q := v.den
    (((Nat.sqrt (4 * (1000000 * p * q)) + q) / (2 * q) : ℕ) : ℚ) / 1000

/-- All non-NaN entries of a float series (pandas `skipna` / `dropna`). -/
def dropNone (s : List (Option ℚ)) : List ℚ := s.filterMap id

/-- pandas `Series.unique` / group keys of `groupby(sort=False)`:
distinct values in order of first appearance. -/
def uniqueAux {α : Type} [DecidableEq α] (seen : List α) : List α → List α
  | [] => []
  | x :: xs => if x ∈ seen then uniqueAux seen xs else x :: uniqueAux (x :: seen) xs

/-- Distinct values of a list in order of first appearance. -/
def uniqueInOrder {α : Type} [DecidableEq α] (l : List α) : List α := uniqueAux [] l

/-- Insert into an ascending list (helper of `sortAsc`). -/
def insertAsc (x : ℚ) : List ℚ → List ℚ
  | [] => [x]
  | y :: ys => if x ≤ y then x :: y :: ys else y :: insertAsc x ys

/-- Ascending sort of a rational series (`np.sort` ascending). -/
def sortAsc : List ℚ → List ℚ
  | [] => []
  | x :: xs => insertAsc x (sortAsc xs)

/-- Indexed sum `Σ (2·i − n − 1)·xᵢ`, `i` counting from the given start;
`compute_gini` uses it with `index = np.arange(1, n+1)`. -/
def giniNum (n : ℕ) : ℕ → List ℚ → ℚ
  | _, [] => 0
  | i, x :: xs => ((2 * i : ℚ) - n - 1) * x + giniNum n (i + 1) xs

/-- Embedding of `ActivityFeatureExtractor._compute_gini`: drop zeros, 0 on empty,
else sort ascending and take `Σ (2i − n − 1)·xᵢ / (n·Σxᵢ)`. -/
def compute_gini (array : List ℚ) : ℚ :=
  if array.filter (· ≠ 0) = [] then 0
  else
    giniNum (sortAsc (array.filter (· ≠ 0))).length 1 (sortAsc (array.filter (· ≠ 0))) /
      ((sortAsc (array.filter (· ≠ 0))).length * (sortAsc (array.filter (· ≠ 0))).sum)

/-- pandas linear-interpolation quantile on a sorted non-empty list. -/
def quantileSorted (q : ℚ) (v : List ℚ) : ℚ :=
  let n := v.length
  let pos := q * ((n : ℚ) - 1)
  let i := ⌊pos⌋.toNat
  let lo := v.getD i 0
  let hi := v.getD (i + 1) lo
  lo + (pos - (i : ℚ)) * (hi - lo)

/-- pandas `Series.quantile`: NaN on an all-NaN series, linear
interpolation over the sorted non-NaN values otherwise. -/
def seriesQuantile (q : ℚ) (s : List (Option ℚ)) : Option ℚ :=
  let v := sortAsc (dropNone s)
  if v = [] then none else some (quantileSorted q v)

/-- pandas `Series.mean` (skips NaN, NaN when nothing remains). -/
def seriesMean (s : List (Option ℚ)) : Option ℚ :=
  let v := dropNone s
  if v = [] then none else some (v.sum / v.length)

/-- Sample variance `Σ(x − x̄)² / (n − 1)` of a non-NaN list. -/
def sampleVar (v : List ℚ) : ℚ :=
  let m := v.sum / v.length
  (v.map (fun x => (x - m) ^ 2)).sum / ((v.length : ℚ) - 1)

/-- pandas `Series.std` (`ddof=1`, skips NaN): NaN when fewer than two
values remain, else the sample standard deviation (already carrying the
pipeline's final 3-decimal rounding, see `round3Sqrt`). -/
def seriesStd (s : List (Option ℚ)) : Option ℚ :=
  let v := dropNone s
  if v.length ≤ 1 then none else some (round3Sqrt (sampleVar v))

/-- NaN-subtraction: `a − b`, NaN-propagating. -/
def optSub (a b : Option ℤ) : Option ℤ :=
  match a, b with
  | some x, some y => some (x - y)
  | _, _ => none

/-- The five statistics of `ActivityFeatureExtractor._compute_stats`. -/
structure Stats where
  mean : Option ℚ
  median : Option ℚ
  std : Option ℚ
  gini : Option ℚ
  IQR : Option ℚ
deriving DecidableEq

/-- Embedding of `ActivityFeatureExtractor._compute_stats`: all-zero on an empty
series; else quantile/mean/std with NaN skipping, std's NaN replaced by
0, gini over the non-NaN values, `IQR = Q3 − Q1`. -/
def compute_stats (s : List (Option ℚ)) : Stats :=
  if s = [] then ⟨some 0, some 0, some 0, some 0, some 0⟩
  else
    { mean := seriesMean s
      median := seriesQuantile (1/2) s
      std := some ((seriesStd s).getD 0)
      gini := some (compute_gini (dropNone s))
      IQR :=
        match seriesQuantile (3/4) s, seriesQuantile (1/4) s with
        | some q3, some q1 => some (q3 - q1)
        | _, _ => none }

/-- One activity record as consumed by `ActivityFeatureExtractor`
(`start_date` already parsed, `none` = NaT from `errors="coerce"`). -/
structure Activity where
  start_date : Option ℤ
  activity : String
  actor_login : String
  repository_id : ℤ
  repository_name : String
deriving DecidableEq

/-- One row of the prepared activity DataFrame
(`date, activity, contributor, repository, owner`). -/
structure Row where
  date : Option ℤ
  activity : String
  contributor : String
  repository : ℤ
  owner : String
deriving DecidableEq

/-- Owner extraction `repo_name.split("/")[0] if "/" in repo_name else "unknown"`
(spelled on the character list so that kernel evaluation works). -/
def ownerOf (name : String) : String :=
  if name.data.contains '/' then ⟨name.data.takeWhile (· ≠ '/')⟩ else "unknown"

/-- Build one DataFrame row from one activity dict. -/
def toRow (a : Activity) : Row :=
  ⟨a.start_date, a.activity, a.actor_login, a.repository_id, ownerOf a.repository_name⟩

/-- Date order used by `sort_values(COL_DATE)`: NaT sorts last. -/
def dateLe : Option ℤ → Option ℤ → Bool
  | none, none => true
  | none, some _ => false
  | some _, none => true
  | some a, some b => a ≤ b

/-- Insert a row into a date-sorted list (helper of `sortRows`). -/
def insertRow (r : Row) : List Row → List Row
  | [] => [r]
  | s :: ss => if dateLe r.date s.date then r :: s :: ss else s :: insertRow r ss

/-- Sort rows by date, NaT last (`sort_values(COL_DATE)`). -/
def sortRows : List Row → List Row
  | [] => []
  | r :: rs => insertRow r (sortRows rs)

/-- Embedding of `ActivityFeatureExtractor._prepare_dataframe`: build the row table
and sort it by date. -/
def prepare_dataframe (acts : List Activity) : List Row :=
  sortRows (acts.map toRow)

/-- Embedding of `ActivityFeatureExtractor._validate_date`: empty frames pass, else
the distinct `contributor` values must number exactly one. -/
def validate_ok (rows : List Row) : Bool :=
  rows = [] || (uniqueInOrder (rows.map (·.contributor))).length = 1

/-- The feature/statistics table `FEATURE_CONFIG` of `features.py`. -/
def FEATURE_CONFIG : List (String × List String) :=
  [("NA", []), ("NT", []), ("NOR", []), ("ORR", []),
   ("DCA", ["mean", "median", "std", "gini"]),
   ("NAR", ["mean", "median", "gini", "IQR"]),
   ("NTR", ["mean", "median", "std", "gini"]),
   ("NCAR", ["mean", "std", "IQR"]),
   ("DCAR", ["mean", "median", "std", "IQR"]),
   ("DAAR", ["mean", "median", "std", "gini", "IQR"]),
   ("DCAT", ["mean", "median", "std", "gini", "IQR"]),
   ("NAT", ["mean", "median", "std", "gini", "IQR"])]

/-- The `FEATURE_NAMES` comprehension over `FEATURE_CONFIG`. -/
def FEATURE_NAMES : List String :=
  (FEATURE_CONFIG.map (fun fc =>
    (if fc.2.isEmpty then [""] else fc.2).map (fun stat =>
      if stat = "" then fc.1 else fc.1 ++ "_" ++ stat))).flatten

/-- The `INTEGER_FEATURES` constant of `features.py`. -/
def INTEGER_FEATURES : List String := ["NA", "NT", "NOR"]

/-- Embedding of `ActivityFeatureExtractor._compute_counting_features`. -/
def counting_features (rows : List Row) : List (String × Option ℚ) :=
  let n_owners := (uniqueInOrder (rows.map (·.owner))).length
  let n_repos := (uniqueInOrder (rows.map (·.repository))).length
  [("NA", some (rows.length : ℚ)),
   ("NT", some ((uniqueInOrder (rows.map (·.activity))).length : ℚ)),
   ("NOR", some (n_owners : ℚ)),
   ("ORR", some (if 0 < n_repos then (n_owners : ℚ) / n_repos else 0))]

/-- Duration in hours: a timestamp difference divided by
`pd.to_timedelta("1 hour")`. -/
def hoursOf : Option ℤ → Option ℚ
  | none => none
  | some d => some ((d : ℚ) / 3600)

/-- Series of `ActivityFeatureExtractor._compute_dca`:
`(times.shift(-1) - times).dropna() / 1 hour`. -/
def dca_series (rows : List Row) : List ℚ :=
  (List.zipWith (fun a b => optSub b.date a.date) rows rows.tail).filterMap
    (fun d => hoursOf d)

/-- DCA statistics (`_compute_dca`). -/
def compute_dca (rows : List Row) : Stats :=
  compute_stats ((dca_series rows).map some)

/-- Sizes of the `groupby(key, sort=False)` groups, keys in first-appearance
order. -/
def groupCounts {κ : Type} [DecidableEq κ] (key : Row → κ) (rows : List Row) : List ℕ :=
  (uniqueInOrder (rows.map key)).map (fun k => (rows.filter (fun r => key r = k)).length)

/-- NAR statistics (`_compute_nar`): activities per repository. -/
def compute_nar (rows : List Row) : Stats :=
  compute_stats ((groupCounts (·.repository) rows).map (fun n => some (n : ℚ)))

/-- NTR statistics (`_compute_ntr`): distinct activity kinds per
repository. -/
def compute_ntr (rows : List Row) : Stats :=
  compute_stats ((uniqueInOrder (rows.map (·.repository))).map (fun k =>
    some ((uniqueInOrder ((rows.filter (fun r => r.repository = k)).map (·.activity))).length : ℚ)))

/-- NAT statistics (`_compute_nat`): activities per activity kind. -/
def compute_nat (rows : List Row) : Stats :=
  compute_stats ((groupCounts (·.activity) rows).map (fun n => some (n : ℚ)))

/-- Maximal runs of rows sharing one key value (helper of `runsBy`). -/
def runsAux {κ : Type} [DecidableEq κ] (key : Row → κ) (cur : List Row) (curKey : κ) :
    List Row → List (List Row)
  | [] => [cur.reverse]
  | r :: rs =>
    if key r = curKey then runsAux key (r :: cur) curKey rs
    else cur.reverse :: runsAux key [r] (key r) rs

/-- Consecutive grouping `(col != col.shift(1)).cumsum()` then
`groupby(group_ids, sort=False)`: the list of maximal runs. -/
def runsBy {κ : Type} [DecidableEq κ] (key : Row → κ) : List Row → List (List Row)
  | [] => []
  | r :: rs => runsAux key [r] (key r) rs

/-- pandas `groupby.agg(..., "first")` on a datetime column skips NaT:
first non-NaT date of a group. -/
def firstDate : List Row → Option ℤ
  | [] => none
  | r :: rs =>
    match r.date with
    | some t => some t
    | none => firstDate rs

/-- pandas `groupby.agg(..., "last")` on a datetime column skips NaT. -/
def lastDate (g : List Row) : Option ℤ := firstDate g.reverse

/-- Start date of the next group, `aggs["start"].shift(-1)` at the head
of the remaining groups (NaN after the last group). -/
def nextStart : List (List Row) → Option ℤ
  | [] => none
  | g :: _ => firstDate g

/-- Per-group `(activities_count, time_spent, time_to_switch)` of
`_get_switching_metrics` (helper folding over the runs). -/
def metricsOf : List (List Row) → List (ℕ × Option ℚ × Option ℚ)
  | [] => []
  | g :: gs =>
    (g.length, hoursOf (optSub (lastDate g) (firstDate g)),
      hoursOf (optSub (nextStart gs) (lastDate g))) :: metricsOf gs

/-- Embedding of `ActivityFeatureExtractor._get_switching_metrics`. -/
def switching_metrics {κ : Type} [DecidableEq κ] (key : Row → κ) (rows : List Row) :
    List (ℕ × Option ℚ × Option ℚ) :=
  metricsOf (runsBy key rows)

/-- DCAT statistics (`_compute_dcat`): `time_to_switch` of the
activity-kind runs. -/
def compute_dcat (rows : List Row) : Stats :=
  compute_stats ((switching_metrics (·.activity) rows).map (fun m => m.2.2))

/-- NCAR statistics: `activities_count` of the repository runs. -/
def compute_ncar (rows : List Row) : Stats :=
  compute_stats ((switching_metrics (·.repository) rows).map (fun m => some (m.1 : ℚ)))

/-- DCAR statistics: `time_spent` of the repository runs. -/
def compute_dcar (rows : List Row) : Stats :=
  compute_stats ((switching_metrics (·.repository) rows).map (fun m => m.2.1))

/-- DAAR statistics: `time_to_switch` of the repository runs. -/
def compute_daar (rows : List Row) : Stats :=
  compute_stats ((switching_metrics (·.repository) rows).map (fun m => m.2.2))

/-- Select one statistic of a `Stats` record by its name. -/
def statGet (st : Stats) : String → Option ℚ
  | "mean" => st.mean
  | "median" => st.median
  | "std" => st.std
  | "gini" => st.gini
  | "IQR" => st.IQR
  | _ => none

/-- The flattened `f"{feature}_{stat}"` columns of one feature, as
produced by `pd.json_normalize(..., sep="_")`. -/
def statsPairs (name : String) (st : Stats) : List (String × Option ℚ) :=
  ["mean", "median", "std", "gini", "IQR"].map (fun s => (name ++ "_" ++ s, statGet st s))

/-- Embedding of `ActivityFeatureExtractor._compute_aggregated_features`: NaN for
every configured statistic on an empty frame, else the eight feature
blocks in the dict-insertion order of the source. -/
def aggregated_features (rows : List Row) : List (String × Option ℚ) :=
  if rows = [] then
    ((FEATURE_CONFIG.filter (fun fc => ¬fc.2.isEmpty)).map (fun fc =>
      fc.2.map (fun s => (fc.1 ++ "_" ++ s, (none : Option ℚ))))).flatten
  else
    statsPairs "DCA" (compute_dca rows) ++ statsPairs "NAR" (compute_nar rows) ++
    statsPairs "NTR" (compute_ntr rows) ++ statsPairs "NAT" (compute_nat rows) ++
    statsPairs "DCAT" (compute_dcat rows) ++ statsPairs "NCAR" (compute_ncar rows) ++
    statsPairs "DCAR" (compute_dcar rows) ++ statsPairs "DAAR" (compute_daar rows)

/-- A cell of the returned one-row feature table: `int64` for
`INTEGER_FEATURES`, possibly-NaN `float64` otherwise. -/
inductive Val where
  | int (z : ℤ)
  | float (v : Option ℚ)
deriving DecidableEq

/-- Column lookup in the flattened feature dict. -/
def lookupCol (pairs : List (String × Option ℚ)) (n : String) : Option ℚ :=
  match pairs with
  | [] => none
  | p :: ps => if p.1 = n then p.2 else lookupCol ps n

/-- Final formatting of one column: `astype(float).round(3)`, then
`astype(int)` for the integer features (those are never NaN). -/
def formatVal (name : String) (v : Option ℚ) : Val :=
  let r := optRound3 v
  if name ∈ INTEGER_FEATURES then .int (truncInt (r.getD 0)) else .float r

/-- Embedding of `ActivityFeatureExtractor.compute_features`: the single row, columns
selected and ordered by `FEATURE_NAMES`, indexed by the username. -/
def compute_features (username : String) (rows : List Row) :
    String × List (String × Val) :=
  let pairs := counting_features rows ++ aggregated_features rows
  (username, FEATURE_NAMES.map (fun n => (n, formatVal n (lookupCol pairs n))))

/-- Construction plus feature computation: `ActivityFeatureExtractor
(username, activities).compute_features()`; `none` is the `ValueError`
of `_validate_date`. -/
def compute_user_row (username : String) (acts : List Activity) :
    Option (String × List (String × Val)) :=
  let rows := prepare_dataframe acts
  if validate_ok rows then some (compute_features username rows) else none

/-- Column access in the returned feature row. -/
def getCol (row : List (String × Val)) (n : String) : Option Val :=
  match row with
  | [] => none
  | p :: ps => if p.1 = n then some p.2 else getCol ps n

/-- One named column of the feature row `compute_user_row` returns. -/
def rowCol (username : String) (acts : List Activity) (n : String) : Option Val :=
  (compute_user_row username acts).bind (fun pr => getCol pr.2 n)

/-- Embedding of `ONNXPredictor.predict` (`models.py`): the inference output is the
probability row `outputs[0][0]`; `probability_value = outputs[0][0][1]`,
label `"Bot"` when `probability_value >= 0.5`, confidence
`(abs(probability_value - 0.5) * 2).round(3)`. -/
def onnx_predict (probRow : List ℚ) : String × ℚ :=
  let probability_value := probRow.getD 1 0
  (if 1/2 ≤ probability_value then "Bot" else "Human",
   round3 (|probability_value - 1/2| * 2))

/-- A header value as Python sees it: real `requests` responses carry
strings, the repository's unit tests mock integers. -/
inductive HeaderVal where
  | str (s : String)
  | int (z : ℤ)
deriving DecidableEq

/-- Lookup `response.headers.get(k)` over an association list of headers. -/
def hget (hs : List (String × HeaderVal)) (k : String) : Option HeaderVal :=
  match hs with
  | [] => none
  | p :: ps => if p.1 = k then some p.2 else hget ps k

/-- Python truthiness of `headers.get(k)`: `None` and `""` are falsy,
any non-empty string is truthy, an int is truthy iff non-zero. -/
def pyTruthy : Option HeaderVal → Bool
  | none => false
  | some (.str s) => !s.data.isEmpty
  | some (.int z) => z ≠ 0

/-- Python `headers.get(k) == 0`: an `int` equal to 0; a string (or a
missing header) never equals the int `0`. -/
def pyEqZero : Option HeaderVal → Bool
  | some (.int z) => z = 0
  | _ => false

/-- Decimal digit accumulator of `parseInt`. -/
def parseNatAux : ℕ → List Char → Option ℕ
  | acc, [] => some acc
  | acc, c :: cs =>
    if c.isDigit then parseNatAux (acc * 10 + (c.toNat - 48)) cs else none

/-- Python `int(str)` on a decimal string (`none` models the
`ValueError` a non-numeric string raises). -/
def parseInt (s : String) : Option ℤ :=
  match s.data with
  | [] => none
  | '-' :: [] => none
  | '-' :: cs => (parseNatAux 0 cs).map (fun n => -(n : ℤ))
  | cs => (parseNatAux 0 cs).map (fun n => (n : ℤ))

/-- Python `int(v)` on a header value. -/
def headerToInt : HeaderVal → Option ℤ
  | .str s => parseInt s
  | .int z => some z

/-- ASCII lowercasing of one character (`str.lower`; the reasons the
upstream sends are ASCII). -/
def asciiLower (c : Char) : Char :=
  if 'A' ≤ c ∧ c ≤ 'Z' then Char.ofNat (c.toNat + 32) else c

/-- Whether the pattern occurs as a contiguous block of the list
(Python's `in` on strings). -/
def containsChars (pat : List Char) : List Char → Bool
  | [] => pat.isEmpty
  | c :: cs => pat.isPrefixOf (c :: cs) || containsChars pat cs

/-- Check `"rate limit" in response.reason.lower()` (with the `response.reason
and` guard). -/
def reasonMentionsRateLimit : Option String → Bool
  | none => false
  | some s => containsChars "rate limit".data (s.data.map asciiLower)

/-- An HTTP response as consumed by `_handle_api_response`. -/
structure Response where
  status : ℕ
  headers : List (String × HeaderVal)
  reason : Option String
deriving DecidableEq

/-- Outcome of `_handle_api_response` (reset instants as epoch values;
the source formats them as strings, which changes nothing observable). -/
inductive ApiOutcome where
  | ok
  | rateLimitExceeded (reset : Option ℤ)
  | notFound
  | retryableErr
  | apiRequestErr
  | crashed
deriving DecidableEq

/-- Embedding of `GitHubAPIExtractor._handle_api_response`: 200 → body; 403/429 →
rate-limit handling (①`Retry-After` ②`X-RateLimit-Remaining == 0`
③ unauthenticated with "rate limit" in the reason ④ retryable);
404 → not found; 500/504/408 → retryable; else API request error.
`.crashed` marks the uncaught `ValueError`/`TypeError` that `int(...)`
of a malformed or missing header would raise. -/
def handle_api_response (api_key : Option String) (now : ℤ) (resp : Response) :
    ApiOutcome :=
  if resp.status = 200 then .ok
  else if resp.status = 403 ∨ resp.status = 429 then
    if pyTruthy (hget resp.headers "retry-after") then
      match (hget resp.headers "retry-after").bind headerToInt with
      | some retry_after => .rateLimitExceeded (some (now + retry_after))
      | none => .crashed
    else if pyEqZero (hget resp.headers "x-ratelimit-remaining") then
      match (hget resp.headers "x-ratelimit-reset").bind headerToInt with
      | some reset => .rateLimitExceeded (some reset)
      | none => .crashed
    else if api_key = none ∧ reasonMentionsRateLimit resp.reason then
      .rateLimitExceeded none
    else .retryableErr
  else if resp.status = 404 then .notFound
  else if resp.status = 500 ∨ resp.status = 504 ∨ resp.status = 408 then .retryableErr
  else .apiRequestErr

/-- Result of one `_query_event_page` call as `query_events` sees it
(the inner retry decorator already absorbed): a page of events, a
`RateLimitExceededError` with its reset string, or any other error. -/
inductive PageResp where
  | ok (events : List ℕ)
  | rateLimited (reset : Option String)
  | failed
deriving DecidableEq

/-- Whether a page result is a `RateLimitExceededError`. -/
def isRateLimited : PageResp → Bool
  | .rateLimited _ => true
  | _ => false

/-- Observable step of the `query_events` generator. -/
inductive TraceEv where
  | request (page : ℕ)
  | yielded (events : List ℕ)
  | slept
  | raisedRateLimit
  | raisedOther
deriving DecidableEq

/-- Embedding of `GitHubAPIExtractor._check_events_left`. -/
def check_events_left (events : List ℕ) : Bool := events.length = 100

/-- Python truthiness of `reset_time : Optional[str]`. -/
def resetKnown : Option String → Bool
  | none => false
  | some s => !s.data.isEmpty

/-- Embedding of `GitHubAPIExtractor.query_events`, driven by the (finite) list of
successive `_query_event_page` results: `page` starts at 1; while
`page <= max_queries`, fetch, yield the batch, stop if it holds fewer
than 100 events, else advance; a `RateLimitExceededError` with known
reset sleeps and retries the same page unless `no_wait`; any other
error propagates.  Returns the generator's observable trace. -/
def query_events_trace (max_queries : ℕ) (no_wait : Bool) :
    List PageResp → ℕ → List TraceEv
  | [], _ => []
  | r :: rest, page =>
    if page ≤ max_queries then
      match r with
      | .ok events =>
        .request page :: .yielded events ::
          (if check_events_left events then query_events_trace max_queries no_wait rest (page + 1)
           else [])
      | .rateLimited reset =>
        .request page ::
          (if no_wait || !resetKnown reset then [.raisedRateLimit]
           else .slept :: query_events_trace max_queries no_wait rest page)
      | .failed => [.request page, .raisedOther]
    else []

/-- The trace of `query_events` from its initial state `page = 1`. -/
def query_events (max_queries : ℕ) (no_wait : Bool) (resps : List PageResp) :
    List TraceEv :=
  query_events_trace max_queries no_wait resps 1

/-- Number of HTTP page requests a trace contains. -/
def countRequests (tr : List TraceEv) : ℕ :=
  (tr.filter (fun e => match e with | .request _ => true | _ => false)).length

/-- Number of batches a trace yields to the caller. -/
def countYields (tr : List TraceEv) : ℕ :=
  (tr.filter (fun e => match e with | .yielded _ => true | _ => false)).length

/-- Result of one invocation of a function wrapped by `retry`. -/
inductive Outcome (α : Type) where
  | ok (v : α)
  | retryable
  | fatal
deriving DecidableEq

/-- What the `retry` wrapper itself ends with. -/
inductive RetryResult (α : Type) where
  | ok (v : α)
  | raisedRetryable
  | raisedFatal
deriving DecidableEq

/-- Lift one invocation's outcome to the wrapper's result. -/
def outcomeResult {α : Type} : Outcome α → RetryResult α
  | .ok v => .ok v
  | .retryable => .raisedRetryable
  | .fatal => .raisedFatal

/-- The `for attempt in range(max_attempts)` loop of `retry`
(`retry_utils.py`): `remaining` counts the attempts still allowed,
`attempt` indexes the call, `current_delay` is slept then multiplied by
`backoff`; a `RetryableError` on the final attempt is re-raised after
the loop.  Returns (number of invocations, sleep durations, result). -/
def retryLoop {α : Type} (op : ℕ → Outcome α) (backoff : ℚ) :
    ℕ → ℕ → ℚ → ℕ × List ℚ × RetryResult α
  | 0, _, _ => (0, [], .raisedRetryable)
  | remaining + 1, attempt, current_delay =>
    match op attempt with
    | .ok v => (1, [], .ok v)
    | .fatal => (1, [], .raisedFatal)
    | .retryable =>
      if remaining = 0 then (1, [], .raisedRetryable)
      else
        let rec_ := retryLoop op backoff remaining (attempt + 1) (current_delay * backoff)
        (rec_.1 + 1, current_delay :: rec_.2.1, rec_.2.2)

/-- The `retry` decorator of `retry_utils.py` applied to an operation:
`max_attempts <= 0` calls the function once with no retry logic, else
runs the bounded loop starting from the initial delay. -/
def retryRun {α : Type} (max_attempts : ℤ) (delay backoff : ℚ) (op : ℕ → Outcome α) :
    ℕ × List ℚ × RetryResult α :=
  if max_attempts ≤ 0 then (1, [], outcomeResult (op 0))
  else retryLoop op backoff max_attempts.toNat 0 delay

/-- Default parameters of `retry` (`max_attempts=3, delay=10,
backoff=2.0`). -/
def retry_defaults : ℤ × ℚ × ℚ := (3, 10, 2)

/-- Decorator arguments on `GitHubAPIExtractor._query_event_page`:
`@retry(max_attempts=3, delay=10, backoff=2.5)`. -/
def query_event_page_retry_args : ℤ × ℚ × ℚ := (3, 10, 5/2)

/-- Decorator arguments on `GitHubAPIExtractor.query_user_type`:
`@retry(max_attempts=3, delay=10, backoff=2.5)`. -/
def query_user_type_retry_args : ℤ × ℚ × ℚ := (3, 10, 5/2)

/-- The 38 feature columns exactly as §4.4 of the specification lists
them (spelled from the spec, to be compared with `FEATURE_NAMES`). -/
def SPEC_FEATURE_ORDER : List String :=
  ["NA", "NT", "NOR", "ORR",
   "DCA_mean", "DCA_median", "DCA_std", "DCA_gini",
   "NAR_mean", "NAR_median", "NAR_gini", "NAR_IQR",
   "NTR_mean", "NTR_median", "NTR_std", "NTR_gini",
   "NCAR_mean", "NCAR_std", "NCAR_IQR",
   "DCAR_mean", "DCAR_median", "DCAR_std", "DCAR_IQR",
   "DAAR_mean", "DAAR_median", "DAAR_std", "DAAR_gini", "DAAR_IQR",
   "DCAT_mean", "DCAT_median", "DCAT_std", "DCAT_gini", "DCAT_IQR",
   "NAT_mean", "NAT_median", "NAT_std", "NAT_gini", "NAT_IQR"]

/-! ## Helper lemmas -/

theorem roundHalfEven_intCast (z : ℤ) : roundHalfEven (z : ℚ) = z := by
  unfold roundHalfEven
  simp

theorem round3_idem (q : ℚ) : round3 (round3 q) = round3 q := by
  unfold round3
  rw [div_mul_cancel₀ _ (by norm_num : (1000 : ℚ) ≠ 0), roundHalfEven_intCast]

theorem optRound3_idem (v : Option ℚ) : optRound3 (optRound3 v) = optRound3 v := by
  cases v <;> simp [optRound3, round3_idem]

/-! ## C2: prediction label and confidence -/

/-- C2: for every probability output row, `predict` labels `Bot` iff the
bot probability `P = outputs[0][0][1]` satisfies `P ≥ 0.5` (else
`Human`), and the confidence is `2·|P − 0.5|` rounded to 3 decimals. -/
theorem predict_label_confidence_spec (probRow : List ℚ) :
    ((onnx_predict probRow).1 = "Bot" ↔ 1/2 ≤ probRow.getD 1 0) ∧
    ((onnx_predict probRow).1 = "Human" ↔ probRow.getD 1 0 < 1/2) ∧
    (onnx_predict probRow).2 = round3 (2 * |probRow.getD 1 0 - 1/2|) := by
  by_cases h : 1/2 ≤ probRow.getD 1 0
  · refine ⟨?_, ?_, ?_⟩
    · simp [onnx_predict, h]
    · simp [onnx_predict, h, not_lt]
    · simp [onnx_predict, h, mul_comm]
  · refine ⟨?_, ?_, ?_⟩
    · simp [onnx_predict, h]
    · simp [onnx_predict, h, not_le.mp h]
    · simp [onnx_predict, h, mul_comm]

/-! ## C4: the `X-RateLimit-Remaining` branch -/

set_option maxRecDepth 2000 in
/-- C4 (code bug): on a 403 whose headers carry no `Retry-After` and
`X-RateLimit-Remaining: "0"` — the string form real `requests` responses
deliver — `_handle_api_response` raises `RetryableError`, not the
`RateLimitExceededError` the spec demands, because `headers.get(...) ==
0` compares a string with the int `0`; with an integer header value
(what the repository's own unit test mocks) the intended branch fires
and the reset epoch is read from `X-RateLimit-Reset`. -/
theorem handle_remaining_zero_divergence :
    handle_api_response (some "token") 0
      ⟨403, [("x-ratelimit-remaining", .str "0"),
             ("x-ratelimit-reset", .str "1700")],
       some "API rate limit exceeded"⟩ = .retryableErr ∧
    handle_api_response (some "token") 0
      ⟨403, [("x-ratelimit-remaining", .int 0),
             ("x-ratelimit-reset", .str "1700")],
       some "API rate limit exceeded"⟩ = .rateLimitExceeded (some 1700) ∧
    ApiOutcome.retryableErr ≠ .rateLimitExceeded (some 1700) := by
  refine ⟨by with_unfolding_all decide, by with_unfolding_all decide, by decide⟩

/-! ## C7: decorator arguments vs. the `retry` defaults -/

/-- C7 counterexample: the decorators on `_query_event_page` and
`query_user_type` do not use the default parameters of `retry` — the
backoff multiplier is 2.5, not the default 2.0. -/
theorem retry_args_not_defaults :
    ¬(query_event_page_retry_args = retry_defaults ∧
      query_user_type_retry_args = retry_defaults) := by
  with_unfolding_all decide

/-- C7 (amended): both HTTP-calling operations are wrapped with
`max_attempts=3, delay=10, backoff=2.5`; the declared defaults of
`retry` are `(3, 10, 2.0)`, so only the backoff deviates; with the
actual arguments an always-retryable operation is invoked 3 times with
sleeps of 10 and 25 seconds. -/
theorem retry_args_actual :
    query_event_page_retry_args = (3, 10, 5/2) ∧
    query_user_type_retry_args = (3, 10, 5/2) ∧
    retry_defaults = (3, 10, 2) ∧
    query_event_page_retry_args.1 = retry_defaults.1 ∧
    query_event_page_retry_args.2.1 = retry_defaults.2.1 ∧
    query_event_page_retry_args.2.2 ≠ retry_defaults.2.2 ∧
    retryRun 3 10 (5/2) (fun _ => (Outcome.retryable : Outcome ℤ)) =
      (3, [10, 25], .raisedRetryable) := by
  refine ⟨rfl, rfl, rfl, rfl, rfl, by with_unfolding_all decide,
    by with_unfolding_all decide⟩

/-! ## C8: properties of the Gini coefficient -/

theorem filter_replicate_zero (n : ℕ) :
    (List.replicate n (0 : ℚ)).filter (· ≠ 0) = [] := by
  induction n with
  | zero => rfl
  | succ k ih => simp [List.replicate_succ, List.filter, ih]

theorem insertAsc_replicate_self (v : ℚ) (k : ℕ) :
    insertAsc v (List.replicate k v) = List.replicate (k + 1) v := by
  cases k with
  | zero => rfl
  | succ m => simp [List.replicate_succ, insertAsc]

theorem sortAsc_replicate (n : ℕ) (v : ℚ) :
    sortAsc (List.replicate n v) = List.replicate n v := by
  induction n with
  | zero => rfl
  | succ k ih =>
    rw [List.replicate_succ, sortAsc, ih, insertAsc_replicate_self,
      ← List.replicate_succ]

theorem giniNum_replicate (n : ℕ) (v : ℚ) (k i : ℕ) :
    giniNum n i (List.replicate k v) = v * (k * ((2 * i + k : ℚ) - n - 2)) := by
  induction k generalizing i with
  | zero => simp [giniNum]
  | succ m ih =>
    rw [List.replicate_succ, giniNum, ih (i + 1)]
    push_cast
    ring

theorem giniNum_map_mul (n : ℕ) (c : ℚ) (l : List ℚ) (i : ℕ) :
    giniNum n i (l.map (fun x => c * x)) = c * giniNum n i l := by
  induction l generalizing i with
  | nil => simp [giniNum]
  | cons x xs ih =>
    rw [List.map_cons, giniNum, giniNum, ih (i + 1)]
    ring

theorem filter_map_mul (c : ℚ) (hc : c ≠ 0) (xs : List ℚ) :
    (xs.map (fun x => c * x)).filter (· ≠ 0) =
      (xs.filter (· ≠ 0)).map (fun x => c * x) := by
  rw [List.filter_map]
  congr 1
  apply List.filter_congr
  intro x _
  simp [Function.comp, mul_eq_zero, hc]

theorem insertAsc_map_mul (c : ℚ) (hc : 0 < c) (x : ℚ) (l : List ℚ) :
    insertAsc (c * x) (l.map (fun y => c * y)) = (insertAsc x l).map (fun y => c * y) := by
  induction l with
  | nil => rfl
  | cons y ys ih =>
    by_cases hxy : x ≤ y
    · rw [List.map_cons, insertAsc, if_pos ((mul_le_mul_left hc).mpr hxy),
        insertAsc, if_pos hxy, List.map_cons, List.map_cons]
    · rw [List.map_cons, insertAsc,
        if_neg (fun hcon => hxy ((mul_le_mul_left hc).mp hcon)),
        insertAsc, if_neg hxy, List.map_cons, ih]

theorem sortAsc_map_mul (c : ℚ) (hc : 0 < c) (l : List ℚ) :
    sortAsc (l.map (fun y => c * y)) = (sortAsc l).map (fun y => c * y) := by
  induction l with
  | nil => rfl
  | cons x xs ih => rw [List.map_cons, sortAsc, sortAsc, ih, insertAsc_map_mul c hc]

theorem sum_map_mul (c : ℚ) (l : List ℚ) :
    (l.map (fun y => c * y)).sum = c * l.sum := by
  induction l with
  | nil => simp
  | cons x xs ih => simp [ih]; ring

/-- C8: the `_compute_gini` of the Feature Extractor sends every
non-empty constant series to 0, every all-zero series to 0, and is
invariant under multiplication by a positive scalar. -/
theorem gini_properties :
    (∀ (n : ℕ) (v : ℚ), n ≠ 0 → compute_gini (List.replicate n v) = 0) ∧
    (∀ xs : List ℚ, (∀ x ∈ xs, x = 0) → compute_gini xs = 0) ∧
    (∀ (xs : List ℚ) (c : ℚ), 0 < c →
      compute_gini (xs.map (fun x => c * x)) = compute_gini xs) := by
  refine ⟨?_, ?_, ?_⟩
  · intro n v hn
    by_cases hv : v = 0
    · simp [compute_gini, hv, filter_replicate_zero]
    · have hfil : (List.replicate n v).filter (· ≠ 0) = List.replicate n v :=
        List.filter_eq_self.mpr (fun a ha => by
          simp only [List.mem_replicate] at ha
          simpa [ha.2] using hv)
      have hne : List.replicate n v ≠ [] := by
        intro hcon
        exact hn (by simpa using congrArg List.length hcon)
      unfold compute_gini
      rw [hfil, if_neg hne, sortAsc_replicate, giniNum_replicate, List.length_replicate]
      push_cast
      ring_nf
  · intro xs hxs
    have hfil : xs.filter (· ≠ 0) = [] := by
      rw [List.filter_eq_nil_iff]
      intro a ha
      simpa using hxs a ha
    unfold compute_gini
    rw [hfil]
    simp
  · intro xs c hc
    unfold compute_gini
    rw [filter_map_mul c hc.ne']
    by_cases hfil : xs.filter (· ≠ 0) = []
    · rw [hfil, List.map_nil]
    · have hmapne : (xs.filter (· ≠ 0)).map (fun x => c * x) ≠ [] := by
        simpa using hfil
      rw [if_neg hmapne, if_neg hfil,
        sortAsc_map_mul c hc, giniNum_map_mul, sum_map_mul, List.length_map]
      rw [show (((sortAsc (xs.filter (· ≠ 0))).length : ℚ)) * (c * (sortAsc (xs.filter (· ≠ 0))).sum) = c * (((sortAsc (xs.filter (· ≠ 0))).length : ℚ) * (sortAsc (xs.filter (· ≠ 0))).sum) by ring]
      exact mul_div_mul_left _ _ hc.ne'

/-- C8 witness: concrete instances of the three Gini properties. -/
theorem gini_properties_witness :
    compute_gini (List.replicate 4 (5 : ℚ)) = 0 ∧
    compute_gini [(0 : ℚ), 0, 0] = 0 ∧
    compute_gini ([(1 : ℚ), 2].map (fun x => 2 * x)) = compute_gini [(1 : ℚ), 2] :=
  ⟨gini_properties.1 4 5 (by decide),
   gini_properties.2.1 [0, 0, 0] (by decide),
   gini_properties.2.2 [1, 2] 2 (by norm_num)⟩

/-! ## C6: the retry policy -/

theorem range_map_mul_pow (d b : ℚ) (j : ℕ) :
    (List.range (j + 1)).map (fun k => d * b ^ k) =
      d :: (List.range j).map (fun k => d * b * b ^ k) := by
  rw [List.range_succ_eq_map, List.map_cons, List.map_map]
  simp only [pow_zero, mul_one]
  congr 1
  apply List.map_congr_left
  intro k _
  simp only [Function.comp_apply, pow_succ]
  ring

theorem retryLoop_stop {α : Type} (op : ℕ → Outcome α) (b : ℚ) :
    ∀ (j r i : ℕ) (d : ℚ) (o : Outcome α), j < r →
      (∀ k, k < j → op (i + k) = .retryable) → op (i + j) = o → o ≠ .retryable →
      retryLoop op b r i d =
        (j + 1, (List.range j).map (fun k => d * b ^ k), outcomeResult o) := by
  intro j
  induction j with
  | zero =>
    intro r i d o hjr _ hop hno
    obtain ⟨r', rfl⟩ : ∃ r', r = r' + 1 := ⟨r - 1, by omega⟩
    rw [Nat.add_zero] at hop
    cases o with
    | ok v => simp [retryLoop, hop, outcomeResult]
    | retryable => exact absurd rfl hno
    | fatal => simp [retryLoop, hop, outcomeResult]
  | succ j ih =>
    intro r i d o hjr hall hop hno
    obtain ⟨r', rfl⟩ : ∃ r', r = r' + 1 := ⟨r - 1, by omega⟩
    have h0 : op i = .retryable := by simpa using hall 0 (Nat.succ_pos j)
    have hr' : r' ≠ 0 := by omega
    have hrec := ih r' (i + 1) (d * b) o (by omega)
      (fun k hk => by
        have := hall (k + 1) (by omega)
        simpa [Nat.add_comm, Nat.add_assoc, Nat.add_left_comm] using this)
      (by rw [show i + 1 + j = i + (j + 1) by omega]; exact hop) hno
    simp only [retryLoop, h0, hr', if_false, hrec, range_map_mul_pow]

theorem retryLoop_exhaust {α : Type} (op : ℕ → Outcome α) (b : ℚ) :
    ∀ (r i : ℕ) (d : ℚ), r ≠ 0 → (∀ k, k < r → op (i + k) = .retryable) →
      retryLoop op b r i d =
        (r, (List.range (r - 1)).map (fun k => d * b ^ k), .raisedRetryable) := by
  intro r
  induction r with
  | zero => intro i d h; exact absurd rfl h
  | succ r' ih =>
    intro i d _ hall
    have h0 : op i = .retryable := by simpa using hall 0 (Nat.succ_pos r')
    by_cases hr' : r' = 0
    · subst hr'
      simp [retryLoop, h0]
    · have hrec := ih (i + 1) (d * b) hr' (fun k hk => by
        have := hall (k + 1) (by omega)
        simpa [Nat.add_comm, Nat.add_assoc, Nat.add_left_comm] using this)
      have hmap : (List.range r').map (fun k => d * b ^ k) =
          d :: (List.range (r' - 1)).map (fun k => d * b * b ^ k) := by
        obtain ⟨m, rfl⟩ : ∃ m, r' = m + 1 := ⟨r' - 1, by omega⟩
        simpa using range_map_mul_pow d b m
      simp only [retryLoop, h0, hr', if_false, hrec, Nat.add_sub_cancel]
      rw [hmap]

/-- C6: the `retry` wrapper invokes the operation exactly
`min(attempts_until_success, max_attempts)` times with sleeps
`delay·backoff^k` between attempts: (1) if attempt `j < max_attempts` is the
first whose outcome is not a `RetryableError` — a success or a
non-retryable failure, which propagates immediately — the wrapper makes
`j+1` calls, sleeps `delay·backoff^0, …, delay·backoff^(j−1)`, and ends
with that outcome; (2) if every allowed attempt raises `RetryableError`,
it makes exactly `max_attempts` calls and re-raises the last error;
(3) if `max_attempts ≤ 0`, it invokes the operation exactly once with no
retry logic. -/
theorem retry_policy_spec {α : Type} (max_attempts : ℤ) (delay backoff : ℚ)
    (op : ℕ → Outcome α) :
    (∀ (j : ℕ) (o : Outcome α), (j : ℤ) < max_attempts →
      (∀ k, k < j → op k = .retryable) → op j = o → o ≠ .retryable →
      retryRun max_attempts delay backoff op =
        (j + 1, (List.range j).map (fun k => delay * backoff ^ k), outcomeResult o)) ∧
    (1 ≤ max_attempts → (∀ k : ℕ, (k : ℤ) < max_attempts → op k = .retryable) →
      retryRun max_attempts delay backoff op =
        (max_attempts.toNat,
         (List.range (max_attempts.toNat - 1)).map (fun k => delay * backoff ^ k),
         .raisedRetryable)) ∧
    (max_attempts ≤ 0 →
      retryRun max_attempts delay backoff op = (1, [], outcomeResult (op 0))) := by
  refine ⟨?_, ?_, ?_⟩
  · intro j o hj hall hop hno
    have hpos : ¬max_attempts ≤ 0 := by omega
    rw [retryRun, if_neg hpos]
    apply retryLoop_stop op backoff j max_attempts.toNat 0 delay o (by omega)
      (fun k hk => by simpa using hall k hk)
      (by simpa using hop) hno
  · intro hma hall
    have hpos : ¬max_attempts ≤ 0 := by omega
    rw [retryRun, if_neg hpos]
    apply retryLoop_exhaust op backoff max_attempts.toNat 0 delay (by omega)
      (fun k hk => by simpa using hall k (by omega))
  · intro h
    rw [retryRun, if_pos h]

/-- C6 witness: a run succeeding at the third attempt (3 calls, sleeps
10 and 20), an exhausted run (3 calls, last `RetryableError`
re-raised), and `max_attempts = 0` (single call, no retries). -/
theorem retry_policy_spec_witness :
    retryRun 3 10 2 (fun k => if k < 2 then Outcome.retryable else Outcome.ok (5 : ℤ)) =
      (3, [10, 20], .ok 5) ∧
    retryRun 3 10 2 (fun _ => (Outcome.retryable : Outcome ℤ)) =
      (3, [10, 20], .raisedRetryable) ∧
    retryRun 0 10 2 (fun _ => (Outcome.fatal : Outcome ℤ)) = (1, [], .raisedFatal) := by
  refine ⟨?_, ?_, ?_⟩
  · exact ((retry_policy_spec 3 10 2 _).1 2 (.ok 5) (by norm_num)
      (by decide) (by norm_num) (by decide)).trans
      (by norm_num [List.range_succ, outcomeResult])
  · exact ((retry_policy_spec 3 10 2 _).2.1 (by norm_num)
      (fun k _ => rfl)).trans
      (by
        refine Prod.ext rfl ?_
        rw [show Int.toNat 3 - 1 = 2 from rfl]
        norm_num [List.range_succ])
  · exact ((retry_policy_spec 0 10 2 _).2.2 (by norm_num)).trans
      (by norm_num [outcomeResult])

/-! ## C5: pagination of `query_events` -/

theorem countRequests_nil : countRequests [] = 0 := rfl

theorem countRequests_request (p : ℕ) (tr : List TraceEv) :
    countRequests (.request p :: tr) = countRequests tr + 1 := by
  simp [countRequests, List.filter]

theorem countRequests_yielded (b : List ℕ) (tr : List TraceEv) :
    countRequests (.yielded b :: tr) = countRequests tr := by
  simp [countRequests, List.filter]

theorem countRequests_slept (tr : List TraceEv) :
    countRequests (.slept :: tr) = countRequests tr := by
  simp [countRequests, List.filter]

theorem countRequests_raisedRateLimit (tr : List TraceEv) :
    countRequests (.raisedRateLimit :: tr) = countRequests tr := by
  simp [countRequests, List.filter]

theorem countRequests_raisedOther (tr : List TraceEv) :
    countRequests (.raisedOther :: tr) = countRequests tr := by
  simp [countRequests, List.filter]

theorem countYields_nil : countYields [] = 0 := rfl

theorem countYields_request (p : ℕ) (tr : List TraceEv) :
    countYields (.request p :: tr) = countYields tr := by
  simp [countYields, List.filter]

theorem countYields_yielded (b : List ℕ) (tr : List TraceEv) :
    countYields (.yielded b :: tr) = countYields tr + 1 := by
  simp [countYields, List.filter]

theorem countYields_slept (tr : List TraceEv) :
    countYields (.slept :: tr) = countYields tr := by
  simp [countYields, List.filter]

theorem countYields_raisedRateLimit (tr : List TraceEv) :
    countYields (.raisedRateLimit :: tr) = countYields tr := by
  simp [countYields, List.filter]

theorem countYields_raisedOther (tr : List TraceEv) :
    countYields (.raisedOther :: tr) = countYields tr := by
  simp [countYields, List.filter]

theorem trace_gt (mq : ℕ) (nw : Bool) (r : PageResp) (rest : List PageResp)
    (page : ℕ) (h : ¬page ≤ mq) :
    query_events_trace mq nw (r :: rest) page = [] := by
  cases r <;> simp [query_events_trace, h]

theorem trace_ok (mq : ℕ) (nw : Bool) (evs : List ℕ) (rest : List PageResp)
    (page : ℕ) (h : page ≤ mq) :
    query_events_trace mq nw (.ok evs :: rest) page =
      .request page :: .yielded evs ::
        (if check_events_left evs then query_events_trace mq nw rest (page + 1)
         else []) := by
  simp [query_events_trace, h]

theorem trace_rateLimited (mq : ℕ) (nw : Bool) (reset : Option String)
    (rest : List PageResp) (page : ℕ) (h : page ≤ mq) :
    query_events_trace mq nw (.rateLimited reset :: rest) page =
      .request page ::
        (if nw || !resetKnown reset then [.raisedRateLimit]
         else .slept :: query_events_trace mq nw rest page) := by
  simp [query_events_trace, h]

theorem trace_failed (mq : ℕ) (nw : Bool) (rest : List PageResp)
    (page : ℕ) (h : page ≤ mq) :
    query_events_trace mq nw (.failed :: rest) page = [.request page, .raisedOther] := by
  simp [query_events_trace, h]

theorem countRequests_trace_le (mq : ℕ) (nw : Bool) :
    ∀ (resps : List PageResp) (page : ℕ),
      (∀ r ∈ resps, isRateLimited r = false) →
      countRequests (query_events_trace mq nw resps page) ≤ mq + 1 - page := by
  intro resps
  induction resps with
  | nil => intro page _; simp [query_events_trace, countRequests_nil]
  | cons r rest ih =>
    intro page hall
    by_cases hpage : page ≤ mq
    · cases r with
      | ok evs =>
        rw [trace_ok mq nw evs rest page hpage, countRequests_request,
          countRequests_yielded]
        by_cases hch : check_events_left evs
        · rw [if_pos hch]
          have := ih (page + 1) (fun q hq => hall q (List.mem_cons_of_mem _ hq))
          omega
        · rw [if_neg hch, countRequests_nil]
          omega
      | rateLimited reset =>
        have := hall (.rateLimited reset) (List.mem_cons_self _ _)
        simp [isRateLimited] at this
      | failed =>
        rw [trace_failed mq nw rest page hpage, countRequests_request,
          countRequests_raisedOther, countRequests_nil]
        omega
    · rw [trace_gt mq nw r rest page hpage, countRequests_nil]
      omega

theorem countYields_trace_le (mq : ℕ) (nw : Bool) :
    ∀ (resps : List PageResp) (page : ℕ),
      countYields (query_events_trace mq nw resps page) ≤ mq + 1 - page := by
  intro resps
  induction resps with
  | nil => intro page; simp [query_events_trace, countYields_nil]
  | cons r rest ih =>
    intro page
    by_cases hpage : page ≤ mq
    · cases r with
      | ok evs =>
        rw [trace_ok mq nw evs rest page hpage, countYields_request,
          countYields_yielded]
        by_cases hch : check_events_left evs
        · rw [if_pos hch]
          have := ih (page + 1)
          omega
        · rw [if_neg hch, countYields_nil]
          omega
      | rateLimited reset =>
        rw [trace_rateLimited mq nw reset rest page hpage, countYields_request]
        by_cases hnw : (nw || !resetKnown reset) = true
        · rw [if_pos hnw, countYields_raisedRateLimit, countYields_nil]
          omega
        · rw [if_neg hnw, countYields_slept]
          exact ih page
      | failed =>
        rw [trace_failed mq nw rest page hpage, countYields_request,
          countYields_raisedOther, countYields_nil]
        omega
    · rw [trace_gt mq nw r rest page hpage, countYields_nil]
      omega

theorem cons_eq_append_cases {α : Type} {x y : α} {tr pre post : List α}
    (h : x :: tr = pre ++ y :: post) :
    (pre = [] ∧ x = y ∧ tr = post) ∨
      ∃ pre1, pre = x :: pre1 ∧ tr = pre1 ++ y :: post := by
  cases pre with
  | nil =>
    simp only [List.nil_append, List.cons.injEq] at h
    exact Or.inl ⟨rfl, h.1, h.2⟩
  | cons a pre1 =>
    simp only [List.cons_append, List.cons.injEq] at h
    exact Or.inr ⟨pre1, by rw [h.1], h.2⟩

theorem short_batch_final (mq : ℕ) (nw : Bool) :
    ∀ (resps : List PageResp) (page : ℕ) (pre : List TraceEv) (b : List ℕ)
      (post : List TraceEv),
      query_events_trace mq nw resps page = pre ++ .yielded b :: post →
      b.length < 100 → post = [] := by
  intro resps
  induction resps with
  | nil =>
    intro page pre b post h _
    rw [query_events_trace] at h
    exact absurd h.symm (List.append_ne_nil_of_right_ne_nil pre (by simp))
  | cons r rest ih =>
    intro page pre b post h hb
    by_cases hpage : page ≤ mq
    · cases r with
      | ok evs =>
        rw [trace_ok mq nw evs rest page hpage] at h
        rcases cons_eq_append_cases h with ⟨-, h1, -⟩ | ⟨pre1, -, h2⟩
        · exact absurd h1 (by simp)
        · rcases cons_eq_append_cases h2 with ⟨-, h3, h4⟩ | ⟨pre2, -, h5⟩
          · have hbe : evs = b := by injection h3
            subst hbe
            have hch : check_events_left evs = false := by
              simp only [check_events_left, decide_eq_false_iff_not]
              omega
            rw [hch] at h4
            simpa using h4.symm
          · by_cases hch : check_events_left evs
            · rw [if_pos hch] at h5
              exact ih (page + 1) pre2 b post h5 hb
            · rw [if_neg hch] at h5
              exact absurd h5.symm
                (List.append_ne_nil_of_right_ne_nil pre2 (by simp))
      | rateLimited reset =>
        rw [trace_rateLimited mq nw reset rest page hpage] at h
        rcases cons_eq_append_cases h with ⟨-, h1, -⟩ | ⟨pre1, -, h2⟩
        · exact absurd h1 (by simp)
        · by_cases hnw : (nw || !resetKnown reset) = true
          · rw [if_pos hnw] at h2
            rcases cons_eq_append_cases h2 with ⟨-, h3, -⟩ | ⟨pre2, -, h5⟩
            · exact absurd h3 (by simp)
            · exact absurd h5.symm
                (List.append_ne_nil_of_right_ne_nil pre2 (by simp))
          · rw [if_neg hnw] at h2
            rcases cons_eq_append_cases h2 with ⟨-, h3, -⟩ | ⟨pre2, -, h5⟩
            · exact absurd h3 (by simp)
            · exact ih page pre2 b post h5 hb
      | failed =>
        rw [trace_failed mq nw rest page hpage] at h
        rcases cons_eq_append_cases h with ⟨-, h1, -⟩ | ⟨pre1, -, h2⟩
        · exact absurd h1 (by simp)
        · rcases cons_eq_append_cases h2 with ⟨-, h3, -⟩ | ⟨pre2, -, h5⟩
          · exact absurd h3 (by simp)
          · exact absurd h5.symm
              (List.append_ne_nil_of_right_ne_nil pre2 (by simp))
    · rw [trace_gt mq nw r rest page hpage] at h
      exact absurd h.symm (List.append_ne_nil_of_right_ne_nil pre (by simp))

theorem yields_before_request (mq : ℕ) (nw : Bool) :
    ∀ (resps : List PageResp) (page : ℕ) (pre : List TraceEv) (p : ℕ)
      (post : List TraceEv),
      query_events_trace mq nw resps page = pre ++ .request p :: post →
      countYields pre + page = p := by
  intro resps
  induction resps with
  | nil =>
    intro page pre p post h
    rw [query_events_trace] at h
    exact absurd h.symm (List.append_ne_nil_of_right_ne_nil pre (by simp))
  | cons r rest ih =>
    intro page pre p post h
    by_cases hpage : page ≤ mq
    · cases r with
      | ok evs =>
        rw [trace_ok mq nw evs rest page hpage] at h
        rcases cons_eq_append_cases h with ⟨hpre, h1, -⟩ | ⟨pre1, hpre, h2⟩
        · obtain rfl : page = p := by injection h1
          simp [hpre, countYields_nil]
        · rcases cons_eq_append_cases h2 with ⟨-, h3, -⟩ | ⟨pre2, hpre1, h5⟩
          · exact absurd h3 (by simp)
          · by_cases hch : check_events_left evs
            · rw [if_pos hch] at h5
              have := ih (page + 1) pre2 p post h5
              rw [hpre, hpre1, countYields_request, countYields_yielded]
              omega
            · rw [if_neg hch] at h5
              exact absurd h5.symm
                (List.append_ne_nil_of_right_ne_nil pre2 (by simp))
      | rateLimited reset =>
        rw [trace_rateLimited mq nw reset rest page hpage] at h
        rcases cons_eq_append_cases h with ⟨hpre, h1, -⟩ | ⟨pre1, hpre, h2⟩
        · obtain rfl : page = p := by injection h1
          simp [hpre, countYields_nil]
        · by_cases hnw : (nw || !resetKnown reset) = true
          · rw [if_pos hnw] at h2
            rcases cons_eq_append_cases h2 with ⟨-, h3, -⟩ | ⟨pre2, hpre1, h5⟩
            · exact absurd h3 (by simp)
            · exact absurd h5.symm
                (List.append_ne_nil_of_right_ne_nil pre2 (by simp))
          · rw [if_neg hnw] at h2
            rcases cons_eq_append_cases h2 with ⟨-, h3, -⟩ | ⟨pre2, hpre1, h5⟩
            · exact absurd h3 (by simp)
            · have := ih page pre2 p post h5
              rw [hpre, hpre1, countYields_request, countYields_slept]
              omega
      | failed =>
        rw [trace_failed mq nw rest page hpage] at h
        rcases cons_eq_append_cases h with ⟨hpre, h1, -⟩ | ⟨pre1, hpre, h2⟩
        · obtain rfl : page = p := by injection h1
          simp [hpre, countYields_nil]
        · rcases cons_eq_append_cases h2 with ⟨-, h3, -⟩ | ⟨pre2, hpre1, h5⟩
          · exact absurd h3 (by simp)
          · exact absurd h5.symm
              (List.append_ne_nil_of_right_ne_nil pre2 (by simp))
    · rw [trace_gt mq nw r rest page hpage] at h
      exact absurd h.symm (List.append_ne_nil_of_right_ne_nil pre (by simp))

/-- C5 counterexample: with `max_queries = 1`, a rate-limited first
response with a known reset (and `no_wait = false`) makes `query_events`
sleep and re-fetch the same page, issuing 2 HTTP page requests — more
than `max_queries`. -/
theorem query_events_exceeds_max_queries :
    query_events 1 false
        [.rateLimited (some "2024-06-01 00:00:00"), .ok (List.replicate 100 0)] =
      [.request 1, .slept, .request 1, .yielded (List.replicate 100 0)] ∧
    countRequests (query_events 1 false
        [.rateLimited (some "2024-06-01 00:00:00"), .ok (List.replicate 100 0)]) = 2 ∧
    ¬countRequests (query_events 1 false
        [.rateLimited (some "2024-06-01 00:00:00"), .ok (List.replicate 100 0)]) ≤ 1 := by
  refine ⟨by decide, by decide, by decide⟩

/-- C5 (amended): when no response is rate-limited, `query_events`
issues at most `max_queries` page requests (a rate-limit retry re-fetches
the same page, so the bound is on rate-limit-free runs); in every run it
yields at most `max_queries` batches; it terminates as soon as a yielded
page holds fewer than 100 events; and each batch is yielded before the
next page is requested: when page `p` is requested, exactly `p − 1`
batches have been yielded. -/
theorem query_events_pagination_spec (mq : ℕ) (nw : Bool) (resps : List PageResp) :
    ((∀ r ∈ resps, isRateLimited r = false) →
      countRequests (query_events mq nw resps) ≤ mq) ∧
    countYields (query_events mq nw resps) ≤ mq ∧
    (∀ (pre : List TraceEv) (b : List ℕ) (post : List TraceEv),
      query_events mq nw resps = pre ++ .yielded b :: post →
      b.length < 100 → post = []) ∧
    (∀ (pre : List TraceEv) (p : ℕ) (post : List TraceEv),
      query_events mq nw resps = pre ++ .request p :: post →
      countYields pre = p - 1 ∧ 1 ≤ p) := by
  refine ⟨?_, ?_, ?_, ?_⟩
  · intro hall
    have := countRequests_trace_le mq nw resps 1 hall
    rw [query_events]
    omega
  · have := countYields_trace_le mq nw resps 1
    rw [query_events]
    omega
  · intro pre b post h hb
    exact short_batch_final mq nw resps 1 pre b post h hb
  · intro pre p post h
    have := yields_before_request mq nw resps 1 pre p post h
    omega

/-- C5 witness: a clean two-page run (100 events, then 2) at
`max_queries = 3`. -/
theorem query_events_pagination_spec_witness :
    countRequests (query_events 3 false [.ok (List.replicate 100 0), .ok [1, 2]]) ≤ 3 ∧
    (countYields [TraceEv.request 1, .yielded (List.replicate 100 0)] = 2 - 1 ∧ 1 ≤ 2) := by
  constructor
  · exact (query_events_pagination_spec 3 false
      [.ok (List.replicate 100 0), .ok [1, 2]]).1 (by decide)
  · exact (query_events_pagination_spec 3 false
      [.ok (List.replicate 100 0), .ok [1, 2]]).2.2.2
      [TraceEv.request 1, .yielded (List.replicate 100 0)] 2 [.yielded [1, 2]]
      (by decide)

/-! ## C1, C9, C10: the feature table -/

theorem length_insertRow (r : Row) (l : List Row) :
    (insertRow r l).length = l.length + 1 := by
  induction l with
  | nil => rfl
  | cons s ss ih =>
    rw [insertRow]
    by_cases h : dateLe r.date s.date
    · rw [if_pos h]
      rfl
    · rw [if_neg h, List.length_cons, ih, List.length_cons]

theorem length_sortRows (l : List Row) : (sortRows l).length = l.length := by
  induction l with
  | nil => rfl
  | cons r rs ih => rw [sortRows, length_insertRow, ih, List.length_cons]

theorem mem_insertRow (x r : Row) (l : List Row) :
    x ∈ insertRow r l ↔ x = r ∨ x ∈ l := by
  induction l with
  | nil => simp [insertRow]
  | cons s ss ih =>
    rw [insertRow]
    by_cases h : dateLe r.date s.date
    · rw [if_pos h]
      simp
    · rw [if_neg h]
      simp only [List.mem_cons, ih]
      tauto

theorem mem_sortRows (x : Row) (l : List Row) : x ∈ sortRows l ↔ x ∈ l := by
  induction l with
  | nil => simp [sortRows]
  | cons r rs ih =>
    rw [sortRows, mem_insertRow]
    simp [ih]

theorem uniqueAux_eq_nil {α : Type} [DecidableEq α] (seen : List α) (xs : List α) :
    uniqueAux seen xs = [] ↔ ∀ x ∈ xs, x ∈ seen := by
  induction xs generalizing seen with
  | nil => simp [uniqueAux]
  | cons x rest ih =>
    rw [uniqueAux]
    by_cases hx : x ∈ seen
    · rw [if_pos hx, ih]
      simp [hx]
    · rw [if_neg hx]
      simp [hx]

theorem uniqueInOrder_length_one {α : Type} [DecidableEq α] (x : α) (xs : List α) :
    (uniqueInOrder (x :: xs)).length = 1 ↔ ∀ y ∈ xs, y = x := by
  have hstep : uniqueInOrder (x :: xs) = x :: uniqueAux [x] xs := by
    simp [uniqueInOrder, uniqueAux]
  rw [hstep, List.length_cons]
  constructor
  · intro h y hy
    have hnil : uniqueAux [x] xs = [] := List.length_eq_zero.mp (by omega)
    simpa using (uniqueAux_eq_nil [x] xs).mp hnil y hy
  · intro h
    have : uniqueAux [x] xs = [] :=
      (uniqueAux_eq_nil [x] xs).mpr (fun y hy => by simp [h y hy])
    rw [this]
    rfl

theorem mem_prepared_logins (acts : List Activity) (z : String) :
    z ∈ (prepare_dataframe acts).map (·.contributor) ↔
      ∃ a ∈ acts, a.actor_login = z := by
  rw [prepare_dataframe]
  constructor
  · intro hz
    obtain ⟨r, hr, rfl⟩ := List.mem_map.mp hz
    rw [mem_sortRows] at hr
    obtain ⟨a, ha, rfl⟩ := List.mem_map.mp hr
    exact ⟨a, ha, rfl⟩
  · rintro ⟨a, ha, rfl⟩
    exact List.mem_map.mpr ⟨toRow a, (mem_sortRows _ _).mpr
      (List.mem_map_of_mem _ ha), rfl⟩

theorem getCol_map (names : List String) (f : String → Val) (n : String)
    (hn : n ∈ names) :
    getCol (names.map (fun m => (m, f m))) n = some (f n) := by
  induction names with
  | nil => exact absurd hn (List.not_mem_nil n)
  | cons m ms ih =>
    rw [List.map_cons, getCol]
    by_cases hmn : m = n
    · rw [if_pos hmn, hmn]
    · rw [if_neg hmn]
      exact ih (by
        rcases List.mem_cons.mp hn with h | h
        · exact absurd h.symm hmn
        · exact h)

/-- C1: for every accepted activity list, the returned single-row
feature table carries exactly the 38 columns of §4.4 (the source's
`FEATURE_NAMES` equals the spec's order list), in that order; the `NA`,
`NT`, `NOR` cells are integers and every other cell is a float fixed by
3-decimal rounding (`optRound3 v = v`; a NaN cell stays NaN under
rounding). -/
theorem feature_row_columns_spec (username : String) (acts : List Activity)
    (lbl : String) (row : List (String × Val))
    (h : compute_user_row username acts = some (lbl, row)) :
    FEATURE_NAMES.length = 38 ∧
    FEATURE_NAMES = SPEC_FEATURE_ORDER ∧
    row.map Prod.fst = FEATURE_NAMES ∧
    ∀ p ∈ row,
      (p.1 ∈ INTEGER_FEATURES → ∃ z, p.2 = Val.int z) ∧
      (p.1 ∉ INTEGER_FEATURES → ∃ v, p.2 = Val.float v ∧ optRound3 v = v) := by
  have hrow : row = FEATURE_NAMES.map (fun n =>
      (n, formatVal n (lookupCol (counting_features (prepare_dataframe acts) ++
        aggregated_features (prepare_dataframe acts)) n))) := by
    simp only [compute_user_row] at h
    split at h
    · rw [compute_features] at h
      simp only [Option.some.injEq, Prod.mk.injEq] at h
      exact h.2.symm
    · exact absurd h (by simp)
  refine ⟨by decide, by decide, ?_, ?_⟩
  · rw [hrow, List.map_map]
    exact List.map_id FEATURE_NAMES
  · intro p hp
    rw [hrow] at hp
    obtain ⟨n, -, rfl⟩ := List.mem_map.mp hp
    constructor
    · intro hint
      exact ⟨_, by rw [formatVal, if_pos hint]⟩
    · intro hnot
      exact ⟨optRound3 (lookupCol _ n), by rw [formatVal, if_neg hnot],
        optRound3_idem _⟩

/-- C1 witness: the empty activity list is accepted and its row has the
38 columns in order. -/
theorem feature_row_columns_spec_witness :
    ∃ row, compute_user_row "octocat" [] = some ("octocat", row) ∧
      row.map Prod.fst = FEATURE_NAMES := by
  have h : compute_user_row "octocat" [] =
      some ("octocat", FEATURE_NAMES.map (fun n =>
        (n, formatVal n (lookupCol (counting_features (prepare_dataframe []) ++
          aggregated_features (prepare_dataframe [])) n)))) := by
    with_unfolding_all rfl
  exact ⟨_, h, (feature_row_columns_spec "octocat" [] _ _ h).2.2.1⟩

/-- C9: construction fails (the `ValueError` of `_validate_date`)
exactly when the activity list holds two activities with distinct
`actor.login` values; an empty list, or one whose activities all share a
login, is accepted. -/
theorem validation_spec (username : String) (acts : List Activity) :
    compute_user_row username acts = none ↔
      ∃ a ∈ acts, ∃ b ∈ acts, a.actor_login ≠ b.actor_login := by
  unfold compute_user_row
  by_cases hv : validate_ok (prepare_dataframe acts) = true
  · rw [if_pos hv]
    constructor
    · intro hc
      exact absurd hc (by simp)
    · rintro ⟨a, ha, b, hb, hne⟩
      rw [validate_ok] at hv
      simp only [Bool.or_eq_true, decide_eq_true_eq] at hv
      rcases hv with hnil | hone
      · have : a.actor_login ∈ (prepare_dataframe acts).map (·.contributor) :=
          (mem_prepared_logins acts _).mpr ⟨a, ha, rfl⟩
        rw [hnil] at this
        simp at this
      · obtain ⟨x, xs, hx⟩ :
            ∃ x xs, (prepare_dataframe acts).map (·.contributor) = x :: xs := by
          rcases hmap : (prepare_dataframe acts).map (·.contributor) with _ | ⟨x, xs⟩
          · rw [hmap] at hone
            simp [uniqueInOrder, uniqueAux] at hone
          · exact ⟨x, xs, hmap⟩
        rw [hx] at hone
        have hally := (uniqueInOrder_length_one x xs).mp hone
        have haz : a.actor_login ∈ x :: xs := by
          rw [← hx]
          exact (mem_prepared_logins acts _).mpr ⟨a, ha, rfl⟩
        have hbz : b.actor_login ∈ x :: xs := by
          rw [← hx]
          exact (mem_prepared_logins acts _).mpr ⟨b, hb, rfl⟩
        have hax : a.actor_login = x := by
          rcases List.mem_cons.mp haz with h | h
          · exact h
          · exact hally _ h
        have hbx : b.actor_login = x := by
          rcases List.mem_cons.mp hbz with h | h
          · exact h
          · exact hally _ h
        exact absurd (hax.trans hbx.symm) hne
  · rw [if_neg hv]
    constructor
    · intro _
      rw [validate_ok] at hv
      simp only [Bool.or_eq_true, decide_eq_true_eq, not_or] at hv
      obtain ⟨hnnil, hnone⟩ := hv
      obtain ⟨x, xs, hx⟩ :
          ∃ x xs, (prepare_dataframe acts).map (·.contributor) = x :: xs := by
        rcases hmap : (prepare_dataframe acts).map (·.contributor) with _ | ⟨x, xs⟩
        · exact absurd (List.map_eq_nil_iff.mp hmap) hnnil
        · exact ⟨x, xs, hmap⟩
      rw [hx] at hnone
      have : ¬∀ y ∈ xs, y = x := fun hcon =>
        hnone ((uniqueInOrder_length_one x xs).mpr hcon)
      push_neg at this
      obtain ⟨y, hy, hyx⟩ := this
      have hxm : x ∈ (prepare_dataframe acts).map (·.contributor) := by
        rw [hx]; exact List.mem_cons_self _ _
      have hym : y ∈ (prepare_dataframe acts).map (·.contributor) := by
        rw [hx]; exact List.mem_cons_of_mem _ hy
      obtain ⟨a, ha, hax⟩ := (mem_prepared_logins acts _).mp hxm
      obtain ⟨b, hb, hby⟩ := (mem_prepared_logins acts _).mp hym
      exact ⟨b, hb, a, ha, by rw [hax, hby]; exact hyx⟩
    · intro _
      rfl

/-- C10: the extractor never compares the activities' login against the
`username` argument: any non-empty list whose activities share one login
`L` is accepted for every username `u` (also `u ≠ L`), and the returned
row is indexed by `u`. -/
theorem username_never_compared (u L : String) (acts : List Activity)
    (hne : acts ≠ []) (hall : ∀ a ∈ acts, a.actor_login = L) :
    ∃ row, compute_user_row u acts = some (u, row) := by
  have hv : validate_ok (prepare_dataframe acts) = true := by
    obtain ⟨x, xs, hx⟩ :
        ∃ x xs, (prepare_dataframe acts).map (·.contributor) = x :: xs := by
      rcases hmap : (prepare_dataframe acts).map (·.contributor) with _ | ⟨x, xs⟩
      · have : (prepare_dataframe acts).length = 0 := by
          have := congrArg List.length hmap
          simpa using this
        rw [prepare_dataframe, length_sortRows, List.length_map] at this
        exact absurd (List.length_eq_zero.mp this) hne
      · exact ⟨x, xs, hmap⟩
    have hallz : ∀ z ∈ (prepare_dataframe acts).map (·.contributor), z = L := by
      intro z hz
      obtain ⟨a, ha, haz⟩ := (mem_prepared_logins acts z).mp hz
      rw [← haz]
      exact hall a ha
    have hxL : x = L := hallz x (by rw [hx]; exact List.mem_cons_self _ _)
    rw [validate_ok]
    simp only [Bool.or_eq_true, decide_eq_true_eq]
    right
    rw [hx]
    exact (uniqueInOrder_length_one x xs).mpr (fun y hy => by
      rw [hallz y (by rw [hx]; exact List.mem_cons_of_mem _ hy), hxL])
  refine ⟨(compute_features u (prepare_dataframe acts)).2, ?_⟩
  unfold compute_user_row
  rw [if_pos hv]
  rfl

/-- C10 witness: `username = "alice"` with one activity whose login is
`"bob"`: construction succeeds and the row is labeled `"alice"`. -/
theorem username_never_compared_witness :
    ∃ row, compute_user_row "alice"
      [⟨some 0, "Push", "bob", 1, "owner/repo"⟩] = some ("alice", row) :=
  username_never_compared "alice" "bob" [⟨some 0, "Push", "bob", 1, "owner/repo"⟩]
    (by simp) (by decide)

/-! ## C3: a single activity -/

theorem optSub_none_left (x : Option ℤ) : optSub none x = none := by
  cases x <;> rfl

theorem hoursOf_none : hoursOf none = none := rfl

theorem round3_zero : round3 0 = 0 := by
  norm_num [round3, roundHalfEven]

theorem firstDate_single (r : Row) : firstDate [r] = r.date := by
  cases h : r.date <;> simp [firstDate, h]

theorem prepare_singleton (a : Activity) : prepare_dataframe [a] = [toRow a] := by
  simp [prepare_dataframe, sortRows, insertRow]

theorem validate_singleton (a : Activity) :
    validate_ok (prepare_dataframe [a]) = true := by
  simp [validate_ok, prepare_singleton, uniqueInOrder, uniqueAux]

theorem switching_single {κ : Type} [DecidableEq κ] (key : Row → κ) (r : Row) :
    switching_metrics key [r] = [(1, hoursOf (optSub r.date r.date), none)] := by
  have h1 : runsBy key [r] = [[r]] := by simp [runsBy, runsAux]
  rw [switching_metrics, h1, metricsOf, metricsOf]
  simp [nextStart, lastDate, firstDate_single, optSub_none_left, hoursOf_none]

theorem stats_single_none :
    compute_stats [none] = ⟨none, none, some 0, some 0, none⟩ := by
  simp [compute_stats, seriesMean, seriesQuantile, seriesStd, compute_gini,
    dropNone, sortAsc]

theorem compute_dca_single (r : Row) :
    compute_dca [r] = ⟨some 0, some 0, some 0, some 0, some 0⟩ := by
  simp [compute_dca, dca_series, compute_stats]

theorem compute_dcat_single (r : Row) :
    compute_dcat [r] = ⟨none, none, some 0, some 0, none⟩ := by
  rw [compute_dcat, switching_single]
  simpa using stats_single_none

theorem compute_daar_single (r : Row) :
    compute_daar [r] = ⟨none, none, some 0, some 0, none⟩ := by
  rw [compute_daar, switching_single]
  simpa using stats_single_none

theorem rowCol_accepted (u : String) (acts : List Activity) (nm : String)
    (hv : validate_ok (prepare_dataframe acts) = true) (hnm : nm ∈ FEATURE_NAMES) :
    rowCol u acts nm = some (formatVal nm (lookupCol
      (counting_features (prepare_dataframe acts) ++
        aggregated_features (prepare_dataframe acts)) nm)) := by
  have h1 : compute_user_row u acts =
      some (compute_features u (prepare_dataframe acts)) := by
    simp only [compute_user_row]
    rw [if_pos hv]
  rw [rowCol, h1]
  show getCol (compute_features u (prepare_dataframe acts)).2 nm = _
  simp only [compute_features]
  exact getCol_map FEATURE_NAMES _ nm hnm

set_option maxRecDepth 20000 in
/-- C3 counterexample: for the single-activity list the DCAT group
series is not empty (it holds one group whose `time_to_switch` is NaN),
and the emitted `DCAT_mean` is NaN — not 0 — in the returned feature
row. -/
theorem single_activity_nan_counterexample :
    rowCol "alice" [⟨some 3600, "Push", "alice", 1, "o/r"⟩] "DCAT_mean" =
      some (.float none) ∧
    some (Val.float none) ≠ some (Val.float (some 0)) ∧
    (switching_metrics (fun r => r.activity)
      (prepare_dataframe [⟨some 3600, "Push", "alice", 1, "o/r"⟩])).length = 1 := by
  refine ⟨by with_unfolding_all decide, by decide, by with_unfolding_all decide⟩

/-- C3 (amended): for an activity list with exactly one activity the DCA
series is empty, so all four emitted DCA aggregates are 0; but the DCAT
and DAAR group series each consist of one group whose `time_to_switch`
is NaN, so only their `std` and `gini` are 0 while their `mean`,
`median` and `IQR` are emitted as NaN. -/
theorem single_activity_aggregates (u : String) (a : Activity) :
    dca_series (prepare_dataframe [a]) = [] ∧
    (switching_metrics (fun r => r.activity) (prepare_dataframe [a])).map
      (fun m => m.2.2) = [none] ∧
    (switching_metrics (fun r => r.repository) (prepare_dataframe [a])).map
      (fun m => m.2.2) = [none] ∧
    rowCol u [a] "DCA_mean" = some (.float (some 0)) ∧
    rowCol u [a] "DCA_median" = some (.float (some 0)) ∧
    rowCol u [a] "DCA_std" = some (.float (some 0)) ∧
    rowCol u [a] "DCA_gini" = some (.float (some 0)) ∧
    rowCol u [a] "DCAT_std" = some (.float (some 0)) ∧
    rowCol u [a] "DCAT_gini" = some (.float (some 0)) ∧
    rowCol u [a] "DAAR_std" = some (.float (some 0)) ∧
    rowCol u [a] "DAAR_gini" = some (.float (some 0)) ∧
    rowCol u [a] "DCAT_mean" = some (.float none) ∧
    rowCol u [a] "DCAT_median" = some (.float none) ∧
    rowCol u [a] "DCAT_IQR" = some (.float none) ∧
    rowCol u [a] "DAAR_mean" = some (.float none) ∧
    rowCol u [a] "DAAR_median" = some (.float none) ∧
    rowCol u [a] "DAAR_IQR" = some (.float none) := by
  have hv := validate_singleton a
  refine ⟨?_, ?_, ?_, ?_, ?_, ?_, ?_, ?_, ?_, ?_, ?_, ?_, ?_, ?_, ?_, ?_, ?_⟩
  · rw [prepare_singleton]
    simp [dca_series]
  · rw [prepare_singleton, switching_single]
    rfl
  · rw [prepare_singleton, switching_single]
    rfl
  all_goals
    rw [rowCol_accepted u [a] _ hv (by decide), prepare_singleton]
    simp [counting_features, aggregated_features, statsPairs, statGet, lookupCol,
      compute_dca_single, compute_dcat_single, compute_daar_single, formatVal,
      INTEGER_FEATURES, optRound3, round3_zero]

end Rabbit
